import Mathlib

/-
Verification of the TweetPurge deletion tool (delete_tweets.py).

The embedding translates the pure logic of the script:
  * filter_tweets        (date / text filter pipeline)
  * delete_tweets        (the deletion orchestrator: confirmation gate,
                          dry-run branch, ledger load/skip, per-item state
                          machine with rate-limit retry, quota abort,
                          proactive rate pause, ledger persistence)

External effects are made explicit:
  * the Twitter client is an oracle `api : Nat -> ApiResult` giving the
    outcome of the n-th delete_tweet call of the run;
  * file system traffic, sleeps and delete calls are recorded in an
    event trace (`Event`);
  * the ledger file is a value `Option (List LedgerEntry)` (`none` =
    file does not exist);
  * `datetime.now().isoformat()` is a constant string parameter `nowStr`;
  * `datetime.fromisoformat` on tweet dates is an abstract parameter
    `parse : String -> Option Int` (returns `none` when parsing raises).

Python string primitives used by the script (str.strip, str.lower,
substring `in`, str.replace with a one-character pattern, int()) are
modelled on the character list underlying `String`; they agree with
Python on the ASCII data this program handles.
-/

namespace TweetPurge

/-- Rate limit constant from the script: 50 delete requests per window. -/
def RATE_LIMIT_DELETES : Nat := 50

/-- Rate limit window from the script: 15 minutes in seconds. -/
def RATE_LIMIT_WINDOW : Nat := 15 * 60

/-- A tweet record as built by both item sources:
`{"id": ..., "text": ..., "created_at": ...}`. -/
structure Tweet where
  id : String
  text : String
  created_at : Option String
deriving Repr, DecidableEq

/-- An entry of the deletion log file (deleted_tweets_log.json). -/
structure LedgerEntry where
  id : String
  text : String
  created_at : Option String
  deleted_at : String
deriving Repr, DecidableEq

/-- Outcome of one client.delete_tweet call, mirroring the exception
classes caught by the script (tweepy TooManyRequests / NotFound /
Forbidden, and any other exception with its message). -/
inductive ApiResult where
  | success
  | tooManyRequests
  | notFound
  | forbidden (msg : String)
  | otherError (msg : String)
deriving Repr, DecidableEq

/-- Observable effects of a run, in order of occurrence. -/
inductive Event where
  | deleteCall (id : String)
  | ledgerRead
  | ledgerWrite (log : List LedgerEntry)
  | sleep (secs : Nat)
deriving Repr, DecidableEq

/-- Does a list start with the given pattern. -/
def startsWithList (l pat : List Char) : Bool :=
  match l, pat with
  | _, [] => true
  | [], _ :: _ => false
  | a :: as, b :: bs => a == b && startsWithList as bs

/-- Python substring test `needle in hay` on character lists. -/
def hasInfixList (needle : List Char) : List Char → Bool
  | [] => needle.isEmpty
  | a :: as => startsWithList (a :: as) needle || hasInfixList needle as

/-- Python `needle in hay` on strings. -/
def strContains (hay needle : String) : Bool :=
  hasInfixList needle.data hay.data

/-- Python str.lower (ASCII). -/
def pyLower (s : String) : String :=
  String.mk (s.data.map Char.toLower)

/-- Python str.strip (remove leading and trailing whitespace). -/
def pyStrip (s : String) : String :=
  String.mk
    (((s.data.dropWhile Char.isWhitespace).reverse.dropWhile Char.isWhitespace).reverse)

/-- Python `s.replace("Z", "+00:00")` (one-character pattern). -/
def replaceZ (s : String) : String :=
  String.mk (s.data.flatMap (fun c => if c == 'Z' then "+00:00".data else [c]))

/-- Does `int(s)` succeed in Python: optional surrounding whitespace,
optional sign, then at least one digit. -/
def pyIntParses (s : String) : Bool :=
  let t := (pyStrip s).data
  let t2 := match t with
    | c :: rest => if c == '+' || c == '-' then rest else t
    | [] => t
  !t2.isEmpty && t2.all Char.isDigit

/-- Message of the ValueError raised by `int(tweet_id)` on a non-numeric
id (Python's quoting of the literal is omitted; it contains no
characters the substring heuristics look for). -/
def intValueErrorMsg (s : String) : String :=
  String.mk ("invalid literal for int() with base 10: ".data ++ s.data)

/-- The script's date/content filter `filter_tweets`.  `parse` stands for
`datetime.fromisoformat` on tweet dates (`none` = raises); the bounds
`before_date` / `after_date` are the already-parsed CLI dates (`none` =
option not given). -/
def filter_tweets (parse : String → Option Int)
    (before_date after_date : Option Int)
    (contains exclude_contains : Option String)
    (tweets : List Tweet) : List Tweet :=
  let f1 := match before_date with
    | none => tweets
    | some b => tweets.filter (fun t =>
        match t.created_at with
        | none => true
        | some s =>
          match parse (replaceZ s) with
          | none => true
          | some d => decide (d < b))
  let f2 := match after_date with
    | none => f1
    | some a => f1.filter (fun t =>
        match t.created_at with
        | none => false
        | some s =>
          match parse (replaceZ s) with
          | none => false
          | some d => decide (a < d))
  let f3 := match contains with
    | none => f2
    | some c => f2.filter (fun t => strContains (pyLower t.text) (pyLower c))
  match exclude_contains with
  | none => f3
  | some c => f3.filter (fun t => !strContains (pyLower t.text) (pyLower c))

/-- Quota/billing-exhaustion heuristic of the plain Forbidden handler:
`"402" in error_str or "credits" in error_str.lower() or
"Payment Required" in error_str or "spend cap" in error_str.lower()`. -/
def isExhaustionForbidden (s : String) : Bool :=
  strContains s "402" || strContains (pyLower s) "credits" ||
    strContains s "Payment Required" || strContains (pyLower s) "spend cap"

/-- Quota/billing-exhaustion heuristic of the generic Exception handler:
`"402" in error_str or "Payment Required" in error_str or
"credits" in error_str.lower() or "spend cap" in error_str.lower()`. -/
def isExhaustionOther (s : String) : Bool :=
  strContains s "402" || strContains s "Payment Required" ||
    strContains (pyLower s) "credits" || strContains (pyLower s) "spend cap"

/-- Exhaustion heuristic applied to a failure of the post-rate-limit
retry: `"402" in str(e) or "credits" in str(e).lower()`. -/
def isRetryExhaustion (s : String) : Bool :=
  strContains s "402" || strContains (pyLower s) "credits"

/-- The log entry appended after a successful deletion. -/
def mkEntry (nowStr : String) (t : Tweet) : LedgerEntry :=
  ⟨t.id, t.text, t.created_at, nowStr⟩

/-- Mutable state of the deletion loop: in-memory log, ledger file
content, the `deleted` / `failed` counters, the proactive-pause counter
`batch_count`, and the number of delete calls issued so far (the oracle
index). -/
structure LoopState where
  log : List LedgerEntry
  file : Option (List LedgerEntry)
  deleted : Nat
  failed : Nat
  batch_count : Nat
  calls : Nat
deriving Repr, DecidableEq

/-- The proactive rate-limit pause at the bottom of the loop body:
`if batch_count >= RATE_LIMIT_DELETES - 2: write log; sleep; reset`. -/
def afterItem (s : LoopState) : LoopState × List Event × Bool :=
  if RATE_LIMIT_DELETES - 2 ≤ s.batch_count then
    ({ s with file := some s.log, batch_count := 0 },
     [Event.ledgerWrite s.log, Event.sleep (RATE_LIMIT_WINDOW + 5)], false)
  else (s, [], false)

/-- One iteration of the deletion loop for tweet `t`: the try/except
ladder of delete_tweets.  Returns the new state, the events of this
iteration, and whether the run aborted (`break`). -/
def step (api : Nat → ApiResult) (nowStr : String) (s : LoopState) (t : Tweet) :
    LoopState × List Event × Bool :=
  if pyIntParses t.id then
    match api s.calls with
    | ApiResult.success =>
      let s1 := { s with
        calls := s.calls + 1,
        deleted := s.deleted + 1,
        batch_count := s.batch_count + 1,
        log := s.log ++ [mkEntry nowStr t] }
      let r := afterItem s1
      (r.1, Event.deleteCall t.id :: r.2.1, r.2.2)
    | ApiResult.tooManyRequests =>
      let s1 := { s with
        calls := s.calls + 1,
        file := some s.log,
        batch_count := 0 }
      let d1 := [Event.deleteCall t.id, Event.ledgerWrite s.log,
                 Event.sleep (RATE_LIMIT_WINDOW + 5)]
      match api s1.calls with
      | ApiResult.success =>
        let s2 := { s1 with
          calls := s1.calls + 1,
          deleted := s1.deleted + 1,
          batch_count := s1.batch_count + 1,
          log := s1.log ++ [mkEntry nowStr t] }
        let r := afterItem s2
        (r.1, d1 ++ Event.deleteCall t.id :: r.2.1, r.2.2)
      | ApiResult.forbidden m =>
        if isRetryExhaustion m then
          ({ s1 with
            calls := s1.calls + 1,
            file := some s1.log },
           d1 ++ [Event.deleteCall t.id, Event.ledgerWrite s1.log], true)
        else
          let s2 := { s1 with calls := s1.calls + 1, failed := s1.failed + 1 }
          let r := afterItem s2
          (r.1, d1 ++ Event.deleteCall t.id :: r.2.1, r.2.2)
      | _ =>
        let s2 := { s1 with calls := s1.calls + 1, failed := s1.failed + 1 }
        let r := afterItem s2
        (r.1, d1 ++ Event.deleteCall t.id :: r.2.1, r.2.2)
    | ApiResult.notFound =>
      let s1 := { s with calls := s.calls + 1, deleted := s.deleted + 1 }
      let r := afterItem s1
      (r.1, Event.deleteCall t.id :: r.2.1, r.2.2)
    | ApiResult.forbidden m =>
      if isExhaustionForbidden m then
        ({ s with calls := s.calls + 1, file := some s.log },
         [Event.deleteCall t.id, Event.ledgerWrite s.log], true)
      else
        let s1 := { s with calls := s.calls + 1, failed := s.failed + 1 }
        let r := afterItem s1
        (r.1, Event.deleteCall t.id :: r.2.1, r.2.2)
    | ApiResult.otherError m =>
      if isExhaustionOther m then
        ({ s with calls := s.calls + 1, file := some s.log },
         [Event.deleteCall t.id, Event.ledgerWrite s.log], true)
      else
        let s1 := { s with calls := s.calls + 1, failed := s.failed + 1 }
        let r := afterItem s1
        (r.1, Event.deleteCall t.id :: r.2.1, r.2.2)
  else
    let m := intValueErrorMsg t.id
    if isExhaustionOther m then
      ({ s with file := some s.log }, [Event.ledgerWrite s.log], true)
    else
      let s1 := { s with failed := s.failed + 1 }
      let r := afterItem s1
      (r.1, r.2.1, r.2.2)

/-- The deletion loop: run `step` over the remaining tweets, stopping on
abort (`break`). -/
def runLoop (api : Nat → ApiResult) (nowStr : String) :
    LoopState → List Tweet → LoopState × List Event × Bool
  | s, [] => (s, [], false)
  | s, t :: ts =>
    match step api nowStr s t with
    | (s1, d1, true) => (s1, d1, true)
    | (s1, d1, false) =>
      match runLoop api nowStr s1 ts with
      | (s2, d2, ab2) => (s2, d1 ++ d2, ab2)

/-- Ids of a loaded log, as used for the `already_deleted_ids` set. -/
def ledgerIds (log : List LedgerEntry) : List String :=
  log.map (fun e => e.id)

/-- `remaining = [t for t in tweets if t["id"] not in already_deleted_ids]`. -/
def remainingOf (ids : List String) (tweets : List Tweet) : List Tweet :=
  tweets.filter (fun t => !(ids.contains t.id))

/-- The ledgerRead events of the load step (the file is read only when
it exists). -/
def readEventsOf : Option (List LedgerEntry) → List Event
  | some _ => [Event.ledgerRead]
  | none => []

/-- Result of a run of delete_tweets.  `aborted` records whether the run
took an exhaustion `break` (it prints the distinctive "No API credits"
message there); `preview` is the list the dry-run branch prints. -/
structure RunResult where
  events : List Event
  finalLedgerFile : Option (List LedgerEntry)
  deleted : Nat
  failed : Nat
  aborted : Bool
  preview : List Tweet
deriving Repr, DecidableEq

/-- The part of delete_tweets after the confirmation gate: load the log
if the file exists, skip already-deleted ids, return early when nothing
remains, otherwise run the loop and write the final log. -/
def runAfterConfirm (api : Nat → ApiResult) (nowStr : String)
    (tweets : List Tweet) (ledgerFile : Option (List LedgerEntry)) : RunResult :=
  let log0 := ledgerFile.getD []
  let remaining := remainingOf (ledgerIds log0) tweets
  if remaining.length = 0 then
    ⟨readEventsOf ledgerFile, ledgerFile, 0, 0, false, []⟩
  else
    let out := runLoop api nowStr ⟨log0, ledgerFile, 0, 0, 0, 0⟩ remaining
    ⟨readEventsOf ledgerFile ++ out.2.1 ++ [Event.ledgerWrite out.1.log],
     some out.1.log, out.1.deleted, out.1.failed, out.2.2, []⟩

/-- The orchestrator delete_tweets: empty-input early return, dry-run
branch, confirmation gate, then the deletion phase. -/
def delete_tweets (api : Nat → ApiResult) (nowStr : String)
    (tweets : List Tweet) (dry_run skip_confirm : Bool)
    (confirmInput : String) (ledgerFile : Option (List LedgerEntry)) : RunResult :=
  if tweets.length = 0 then ⟨[], ledgerFile, 0, 0, false, []⟩
  else if dry_run then ⟨[], ledgerFile, 0, 0, false, tweets.take 20⟩
  else if !skip_confirm && pyStrip confirmInput != "DELETE" then
    ⟨[], ledgerFile, 0, 0, false, []⟩
  else runAfterConfirm api nowStr tweets ledgerFile

/-- Is an event a delete_tweet call. -/
def isCall : Event → Bool
  | Event.deleteCall _ => true
  | _ => false

/-- Is an event a ledger-file read. -/
def isRead : Event → Bool
  | Event.ledgerRead => true
  | _ => false

/-- Number of delete_tweet calls in a trace. -/
def countDeleteCalls (es : List Event) : Nat :=
  (es.filter isCall).length

/-- Number of sleeps in a trace. -/
def countSleeps (es : List Event) : Nat :=
  (es.filter (fun e => match e with | Event.sleep _ => true | _ => false)).length

/-- Every sleep is immediately preceded by a ledger write; the flag is
whether the previous event was a write. -/
def wbsAux (prevWrite : Bool) : List Event → Bool
  | [] => true
  | Event.sleep _ :: rest => prevWrite && wbsAux false rest
  | Event.ledgerWrite _ :: rest => wbsAux true rest
  | _ :: rest => wbsAux false rest

/-- In this trace, every sleep is immediately preceded by a ledger
write (in particular the trace does not start with a sleep). -/
def writeBeforeEverySleep (es : List Event) : Bool :=
  wbsAux false es

/-- After the first delete call, the trace contains no ledger read. -/
def noReadAfterCall : List Event → Bool
  | [] => true
  | Event.deleteCall _ :: rest => rest.all (fun e => !isRead e)
  | _ :: rest => noReadAfterCall rest

/-- A well-formed loop-trace chunk: every sleep is immediately preceded
by a ledger write, and the ledger file is never read. -/
def chunkOK (d : List Event) : Bool :=
  wbsAux false d && d.all (fun e => !isRead e)

@[simp] theorem afterItem_log (s : LoopState) : (afterItem s).1.log = s.log := by
  unfold afterItem; split <;> rfl

@[simp] theorem afterItem_calls (s : LoopState) : (afterItem s).1.calls = s.calls := by
  unfold afterItem; split <;> rfl

@[simp] theorem afterItem_deleted (s : LoopState) : (afterItem s).1.deleted = s.deleted := by
  unfold afterItem; split <;> rfl

@[simp] theorem afterItem_failed (s : LoopState) : (afterItem s).1.failed = s.failed := by
  unfold afterItem; split <;> rfl

@[simp] theorem afterItem_noAbort (s : LoopState) : (afterItem s).2.2 = false := by
  unfold afterItem; split <;> rfl

@[simp] theorem afterItem_calls_count (s : LoopState) :
    countDeleteCalls (afterItem s).2.1 = 0 := by
  unfold afterItem; split <;> rfl

theorem afterItem_of_lt (s : LoopState) (h : s.batch_count < RATE_LIMIT_DELETES - 2) :
    afterItem s = (s, [], false) := by
  unfold afterItem
  rw [if_neg (by omega)]

@[simp] theorem countDeleteCalls_nil : countDeleteCalls [] = 0 := rfl

@[simp] theorem countDeleteCalls_append (a b : List Event) :
    countDeleteCalls (a ++ b) = countDeleteCalls a + countDeleteCalls b := by
  simp [countDeleteCalls, List.filter_append]

@[simp] theorem countDeleteCalls_cons_call (i : String) (d : List Event) :
    countDeleteCalls (Event.deleteCall i :: d) = countDeleteCalls d + 1 := by
  simp [countDeleteCalls, List.filter, isCall, Nat.add_comm]

@[simp] theorem countDeleteCalls_cons_write (L : List LedgerEntry) (d : List Event) :
    countDeleteCalls (Event.ledgerWrite L :: d) = countDeleteCalls d := by
  simp [countDeleteCalls, List.filter, isCall]

@[simp] theorem countDeleteCalls_cons_sleep (k : Nat) (d : List Event) :
    countDeleteCalls (Event.sleep k :: d) = countDeleteCalls d := by
  simp [countDeleteCalls, List.filter, isCall]

@[simp] theorem countDeleteCalls_cons_read (d : List Event) :
    countDeleteCalls (Event.ledgerRead :: d) = countDeleteCalls d := by
  simp [countDeleteCalls, List.filter, isCall]

theorem runLoop_nil (api : Nat → ApiResult) (n : String) (s : LoopState) :
    runLoop api n s [] = (s, [], false) := rfl

theorem runLoop_cons_noAbort (api : Nat → ApiResult) (n : String) (s s1 : LoopState)
    (t : Tweet) (ts : List Tweet) (d1 : List Event)
    (h : step api n s t = (s1, d1, false)) :
    runLoop api n s (t :: ts) =
      ((runLoop api n s1 ts).1, d1 ++ (runLoop api n s1 ts).2.1,
        (runLoop api n s1 ts).2.2) := by
  rcases hr : runLoop api n s1 ts with ⟨s2, d2, ab2⟩
  simp only [runLoop, h, hr]

theorem runLoop_cons_abort (api : Nat → ApiResult) (n : String) (s s1 : LoopState)
    (t : Tweet) (ts : List Tweet) (d1 : List Event)
    (h : step api n s t = (s1, d1, true)) :
    runLoop api n s (t :: ts) = (s1, d1, true) := by
  simp only [runLoop, h]

/-- A successful delete call: one call made, the entry appended, the
success counter incremented, no abort. -/
theorem step_success_spec (api : Nat → ApiResult) (n : String) (s : LoopState)
    (t : Tweet) (hpar : pyIntParses t.id = true)
    (hs : api s.calls = ApiResult.success) :
    ∃ s1 d1, step api n s t = (s1, d1, false) ∧
      s1.log = s.log ++ [mkEntry n t] ∧ s1.calls = s.calls + 1 ∧
      s1.deleted = s.deleted + 1 ∧ s1.failed = s.failed ∧
      countDeleteCalls d1 = 1 := by
  have heq : step api n s t =
      ((afterItem { s with
          calls := s.calls + 1,
          deleted := s.deleted + 1,
          batch_count := s.batch_count + 1,
          log := s.log ++ [mkEntry n t] }).1,
        Event.deleteCall t.id ::
          (afterItem { s with
            calls := s.calls + 1,
            deleted := s.deleted + 1,
            batch_count := s.batch_count + 1,
            log := s.log ++ [mkEntry n t] }).2.1,
        false) := by
    simp [step, hpar, hs]
  exact ⟨_, _, heq, by simp, by simp, by simp, by simp,
    by rw [countDeleteCalls_cons_call, afterItem_calls_count]⟩

/-- Running the loop over a block of tweets whose delete calls all
succeed: one call and one appended entry per tweet, no abort, and the
loop continues into the remainder from the advanced state. -/
theorem runLoop_success_run (api : Nat → ApiResult) (n : String) :
    ∀ (pre rest : List Tweet) (s : LoopState),
      (∀ i, i < pre.length → api (s.calls + i) = ApiResult.success) →
      (∀ t ∈ pre, pyIntParses t.id = true) →
      ∃ s1 d1,
        runLoop api n s (pre ++ rest) =
          ((runLoop api n s1 rest).1, d1 ++ (runLoop api n s1 rest).2.1,
            (runLoop api n s1 rest).2.2) ∧
        s1.log = s.log ++ pre.map (mkEntry n) ∧
        s1.calls = s.calls + pre.length ∧
        s1.deleted = s.deleted + pre.length ∧
        s1.failed = s.failed ∧
        countDeleteCalls d1 = pre.length
  | [], rest, s, _, _ => ⟨s, [], by simp, by simp, rfl, rfl, rfl, rfl⟩
  | t :: pres, rest, s, hapi, hpar => by
    have h0 : api s.calls = ApiResult.success := by
      simpa using hapi 0 (by simp)
    obtain ⟨s1, d1, hstep, hlog1, hcalls1, hdel1, hfail1, hcnt1⟩ :=
      step_success_spec api n s t (hpar t (by simp)) h0
    obtain ⟨s2, d2, hloop, hlog2, hcalls2, hdel2, hfail2, hcnt2⟩ :=
      runLoop_success_run api n pres rest s1
        (by
          intro i hi
          rw [hcalls1]
          have := hapi (i + 1) (by simpa using Nat.succ_lt_succ hi)
          simpa [Nat.add_assoc, Nat.add_comm 1 i] using this)
        (fun u hu => hpar u (by simp [hu]))
    refine ⟨s2, d1 ++ d2, ?_, ?_, ?_, ?_, ?_, ?_⟩
    · rw [List.cons_append, runLoop_cons_noAbort api n s s1 t (pres ++ rest) d1 hstep,
        hloop]
      simp [List.append_assoc]
    · rw [hlog2, hlog1]
      simp [List.append_assoc]
    · rw [hcalls2, hcalls1]
      simp [List.length_cons]
      omega
    · rw [hdel2, hdel1]
      simp [List.length_cons]
      omega
    · rw [hfail2, hfail1]
    · rw [countDeleteCalls_append, hcnt1, hcnt2]
      simp [Nat.add_comm]

theorem contains_iff_memStr (l : List String) (a : String) :
    l.contains a = true ↔ a ∈ l :=
  List.elem_iff

theorem mem_remainingOf (ids : List String) (tweets : List Tweet) (t : Tweet) :
    t ∈ remainingOf ids tweets ↔ t ∈ tweets ∧ ids.contains t.id = false := by
  simp [remainingOf, List.mem_filter]

theorem remainingOf_eq_nil (ids : List String) (tweets : List Tweet)
    (h : ∀ t ∈ tweets, t.id ∈ ids) : remainingOf ids tweets = [] := by
  rw [remainingOf, List.filter_eq_nil_iff]
  intro t ht
  simpa using h t ht

theorem remainingOf_nilIds (tweets : List Tweet) : remainingOf [] tweets = tweets := by
  simp [remainingOf]

/-- If every candidate id is already in the persisted ledger, the run
makes no delete call and leaves the ledger file unchanged (whatever the
flags and the confirmation input are). -/
theorem run_skipAll (api : Nat → ApiResult) (n : String) (tweets : List Tweet)
    (dr sc : Bool) (ci : String) (L : List LedgerEntry)
    (h : ∀ t ∈ tweets, t.id ∈ ledgerIds L) :
    countDeleteCalls (delete_tweets api n tweets dr sc ci (some L)).events = 0 ∧
      (delete_tweets api n tweets dr sc ci (some L)).finalLedgerFile = some L := by
  by_cases h0 : tweets.length = 0
  · simp [delete_tweets, h0, countDeleteCalls]
  by_cases hdr : dr
  · simp [delete_tweets, h0, hdr, countDeleteCalls]
  by_cases hgate : (!sc && pyStrip ci != "DELETE") = true
  · simp [delete_tweets, h0, hdr, hgate, countDeleteCalls]
  · have hrem : remainingOf (ledgerIds L) tweets = [] :=
      remainingOf_eq_nil _ _ h
    simp [delete_tweets, h0, hdr, hgate, runAfterConfirm, hrem, readEventsOf,
      countDeleteCalls, isCall]

theorem ledgerIds_append (a b : List LedgerEntry) :
    ledgerIds (a ++ b) = ledgerIds a ++ ledgerIds b := by
  simp [ledgerIds]

theorem ledgerIds_map_mkEntry (n : String) (l : List Tweet) :
    ledgerIds (l.map (mkEntry n)) = l.map (fun t => t.id) := by
  simp [ledgerIds, mkEntry]

/-- A first-attempt Forbidden error classified as quota/billing
exhaustion: the ledger is written and the loop aborts, with no retry. -/
theorem step_forbidden_abort (api : Nat → ApiResult) (n : String) (s : LoopState)
    (t : Tweet) (m : String) (hpar : pyIntParses t.id = true)
    (hm : api s.calls = ApiResult.forbidden m)
    (hex : isExhaustionForbidden m = true) :
    step api n s t =
      ({ s with calls := s.calls + 1, file := some s.log },
        [Event.deleteCall t.id, Event.ledgerWrite s.log], true) := by
  simp [step, hpar, hm, hex]

/-- C1.  Idempotence across runs: (1) when every candidate id is present
in the persisted ledger loaded at the start of delete_tweets, the run
issues zero delete_tweet calls and the ledger file is unchanged;
(2) a second run on the same candidate set, against the ledger persisted
by a fully successful first run, issues zero delete_tweet calls and
leaves the ledger unchanged. -/
theorem c1_idempotent_runs (nowStr : String) (tweets : List Tweet) :
    (∀ (api : Nat → ApiResult) (dr sc : Bool) (ci : String) (L : List LedgerEntry),
        (∀ t ∈ tweets, t.id ∈ ledgerIds L) →
        countDeleteCalls (delete_tweets api nowStr tweets dr sc ci (some L)).events = 0 ∧
          (delete_tweets api nowStr tweets dr sc ci (some L)).finalLedgerFile = some L) ∧
    (∀ (sc : Bool) (ci : String) (file : Option (List LedgerEntry)),
        (∀ t ∈ tweets, pyIntParses t.id = true) →
        (sc = true ∨ pyStrip ci = "DELETE") →
        ∀ (api2 : Nat → ApiResult) (n2 : String) (dr2 sc2 : Bool) (ci2 : String),
          countDeleteCalls (delete_tweets api2 n2 tweets dr2 sc2 ci2
            (delete_tweets (fun _ => ApiResult.success) nowStr tweets false sc ci
              file).finalLedgerFile).events = 0 ∧
          (delete_tweets api2 n2 tweets dr2 sc2 ci2
            (delete_tweets (fun _ => ApiResult.success) nowStr tweets false sc ci
              file).finalLedgerFile).finalLedgerFile =
            (delete_tweets (fun _ => ApiResult.success) nowStr tweets false sc ci
              file).finalLedgerFile) := by
  constructor
  · intro api dr sc ci L h
    exact run_skipAll api nowStr tweets dr sc ci L h
  · intro sc ci file hpar hc api2 n2 dr2 sc2 ci2
    by_cases h0 : tweets.length = 0
    · have ht : tweets = [] := List.length_eq_zero.mp h0
      subst ht
      simp [delete_tweets, countDeleteCalls]
    · have hgate : (!sc && pyStrip ci != "DELETE") = false := by
        rcases hc with h | h <;> simp [h]
      have hrun1 : delete_tweets (fun _ => ApiResult.success) nowStr tweets false sc ci file
          = runAfterConfirm (fun _ => ApiResult.success) nowStr tweets file := by
        simp [delete_tweets, h0, hgate]
      rw [hrun1]
      by_cases hrem : (remainingOf (ledgerIds (file.getD [])) tweets).length = 0
      · have hcov : ∀ t ∈ tweets, t.id ∈ ledgerIds (file.getD []) := by
          intro t ht
          by_contra hmem
          have hcon : (ledgerIds (file.getD [])).contains t.id = false := by
            rcases hb : (ledgerIds (file.getD [])).contains t.id
            · rfl
            · exact absurd ((contains_iff_memStr _ _).1 hb) hmem
          have hin : t ∈ remainingOf (ledgerIds (file.getD [])) tweets :=
            (mem_remainingOf _ _ t).2 ⟨ht, hcon⟩
          rw [List.length_eq_zero.mp hrem] at hin
          simp at hin
        cases file with
        | none =>
          exfalso
          rw [show (Option.getD (none : Option (List LedgerEntry)) []) = [] from rfl] at hrem
          rw [show ledgerIds [] = [] from rfl, remainingOf_nilIds] at hrem
          exact h0 hrem
        | some L0 =>
          have hfa : runAfterConfirm (fun _ => ApiResult.success) nowStr tweets (some L0) =
              ⟨readEventsOf (some L0), some L0, 0, 0, false, []⟩ := by
            simp only [runAfterConfirm]
            rw [if_pos (by simpa using hrem)]
          rw [hfa]
          exact run_skipAll api2 n2 tweets dr2 sc2 ci2 L0 (by simpa using hcov)
      · obtain ⟨s1, d1, hloop, hlog, hcalls, hdel, hfail, hcnt⟩ :=
          runLoop_success_run (fun _ => ApiResult.success) nowStr
            (remainingOf (ledgerIds (file.getD [])) tweets) []
            ⟨file.getD [], file, 0, 0, 0, 0⟩
            (fun _ _ => rfl)
            (fun u hu => hpar u ((mem_remainingOf _ _ u).1 hu).1)
        rw [List.append_nil] at hloop
        rw [runLoop_nil] at hloop
        have hfa : runAfterConfirm (fun _ => ApiResult.success) nowStr tweets file =
            ⟨readEventsOf file ++ d1 ++ [Event.ledgerWrite s1.log], some s1.log,
              s1.deleted, s1.failed, false, []⟩ := by
          simp only [runAfterConfirm]
          rw [if_neg hrem]
          rw [hloop]
          simp
        rw [hfa]
        have hcov : ∀ t ∈ tweets, t.id ∈ ledgerIds s1.log := by
          intro t ht
          rw [hlog, ledgerIds_append, ledgerIds_map_mkEntry]
          rw [List.mem_append]
          rcases hb : (ledgerIds (file.getD [])).contains t.id
          · right
            have hin : t ∈ remainingOf (ledgerIds (file.getD [])) tweets :=
              (mem_remainingOf _ _ t).2 ⟨ht, hb⟩
            exact List.mem_map_of_mem _ hin
          · left
            exact (contains_iff_memStr _ _).1 hb
        exact run_skipAll api2 n2 tweets dr2 sc2 ci2 s1.log hcov

/-- C1 witness: a concrete skipped run and a concrete second run. -/
theorem c1_idempotent_runs_witness :
    countDeleteCalls (delete_tweets (fun _ => ApiResult.success) "now"
      [⟨"1", "hello", none⟩] false true "" (some [⟨"1", "hello", none, "ts"⟩])).events = 0 ∧
    countDeleteCalls (delete_tweets (fun _ => ApiResult.notFound) "later"
      [⟨"7", "a", none⟩] false false "DELETE"
      (delete_tweets (fun _ => ApiResult.success) "now" [⟨"7", "a", none⟩] false true "x"
        none).finalLedgerFile).events = 0 :=
  ⟨((c1_idempotent_runs "now" [⟨"1", "hello", none⟩]).1 (fun _ => ApiResult.success)
      false true "" [⟨"1", "hello", none, "ts"⟩] (by decide)).1,
   ((c1_idempotent_runs "now" [⟨"7", "a", none⟩]).2 true "x" none (by decide)
      (Or.inl rfl) (fun _ => ApiResult.notFound) "later" false false "DELETE").1⟩

/-- C2.  The claim says date filters fail open on both stages; the code
does so only in the before-date stage.  Evaluating filter_tweets:
an item with missing created_at and an item whose created_at does not
parse are both dropped by the after-date stage (first conjunct), while
the before-date stage retains both (second conjunct). -/
theorem c2_after_filter_drops_dateless :
    filter_tweets (fun _ => none) none (some 0) none none
        [⟨"1", "hello", none⟩, ⟨"2", "x", some "notadate"⟩] = [] ∧
    filter_tweets (fun _ => none) (some 0) none none none
        [⟨"1", "hello", none⟩, ⟨"2", "x", some "notadate"⟩] =
      [⟨"1", "hello", none⟩, ⟨"2", "x", some "notadate"⟩] := by
  decide

/-- C3 counterexample: the input " DELETE" is not the literal
confirmation string, yet the run proceeds and issues a delete call,
because the code strips whitespace before comparing. -/
theorem c3_strip_bypass_counterexample :
    " DELETE" ≠ "DELETE" ∧
    countDeleteCalls (delete_tweets (fun _ => ApiResult.success) "now"
      [⟨"1", "hello", none⟩] false false " DELETE" none).events = 1 := by
  decide

/-- C3 amended: with dry_run and skip_confirm both false, the run
reaches a delete call only when the whitespace-stripped confirmation
input is exactly "DELETE"; for any input whose stripped form differs,
the run aborts with no events at all (no delete call, no ledger read or
write). -/
theorem c3_confirm_gate_trimmed (api : Nat → ApiResult) (n : String)
    (tweets : List Tweet) (ci : String) (file : Option (List LedgerEntry)) :
    (pyStrip ci ≠ "DELETE" →
      (delete_tweets api n tweets false false ci file).events = []) ∧
    (0 < countDeleteCalls (delete_tweets api n tweets false false ci file).events →
      pyStrip ci = "DELETE") := by
  by_cases h0 : tweets.length = 0
  · constructor
    · intro _
      simp [delete_tweets, h0]
    · intro hcd
      exfalso
      simp [delete_tweets, h0, countDeleteCalls] at hcd
  · by_cases hs : pyStrip ci = "DELETE"
    · exact ⟨fun h => absurd hs h, fun _ => hs⟩
    · have hgate : (!false && pyStrip ci != "DELETE") = true := by
        simp [hs]
      constructor
      · intro _
        simp [delete_tweets, h0, hgate, hs]
      · intro hcd
        exfalso
        simp [delete_tweets, h0, hgate, hs, countDeleteCalls] at hcd

/-- C3 witness: a rejected confirmation input at a concrete run. -/
theorem c3_confirm_gate_trimmed_witness :
    (delete_tweets (fun _ => ApiResult.success) "now" [⟨"1", "a", none⟩]
      false false "nope" none).events = [] :=
  (c3_confirm_gate_trimmed (fun _ => ApiResult.success) "now" [⟨"1", "a", none⟩]
    "nope" none).1 (by decide)

/-- C6.  A NotFound outcome is recorded as a success: one delete call,
the success counter incremented, no retry, no new ledger entry, no
abort (the in-memory log, ledger file, failure counter and pause
counter are all untouched). -/
theorem c6_notfound_success (api : Nat → ApiResult) (n : String) (s : LoopState)
    (t : Tweet) (hpar : pyIntParses t.id = true)
    (hnf : api s.calls = ApiResult.notFound)
    (hb : s.batch_count < RATE_LIMIT_DELETES - 2) :
    step api n s t =
      ({ s with calls := s.calls + 1, deleted := s.deleted + 1 },
        [Event.deleteCall t.id], false) := by
  have hb1 : ({ s with calls := s.calls + 1, deleted := s.deleted + 1 } :
      LoopState).batch_count < RATE_LIMIT_DELETES - 2 := hb
  simp [step, hpar, hnf, afterItem_of_lt _ hb1]

/-- C6 witness: a concrete NotFound call. -/
theorem c6_notfound_success_witness :
    step (fun _ => ApiResult.notFound) "now" ⟨[], none, 0, 0, 0, 0⟩ ⟨"1", "a", none⟩ =
      (⟨[], none, 1, 0, 0, 1⟩, [Event.deleteCall "1"], false) :=
  c6_notfound_success (fun _ => ApiResult.notFound) "now" ⟨[], none, 0, 0, 0, 0⟩
    ⟨"1", "a", none⟩ (by decide) rfl (by decide)

/-- C4.  Quota-exhaustion abort: when the calls for the tweets before t
all succeed and the call for t raises a Forbidden error whose message
matches the exhaustion heuristics, the run aborts signalling
exhaustion: exactly one call is made for t and none for the tweets
after it, t is not retried, the ledger file holds exactly the entries
of the prior successes, and the failure counter stays 0. -/
theorem c4_quota_abort (api : Nat → ApiResult) (n : String)
    (pre : List Tweet) (t : Tweet) (post : List Tweet) (msg : String)
    (hpar : ∀ u ∈ pre ++ t :: post, pyIntParses u.id = true)
    (hapi : ∀ i, i < pre.length → api i = ApiResult.success)
    (hk : api pre.length = ApiResult.forbidden msg)
    (hex : isExhaustionForbidden msg = true)
    (sc : Bool) (ci : String) (hc : sc = true ∨ pyStrip ci = "DELETE") :
    (delete_tweets api n (pre ++ t :: post) false sc ci none).aborted = true ∧
    (delete_tweets api n (pre ++ t :: post) false sc ci none).deleted = pre.length ∧
    (delete_tweets api n (pre ++ t :: post) false sc ci none).failed = 0 ∧
    countDeleteCalls (delete_tweets api n (pre ++ t :: post) false sc ci none).events =
      pre.length + 1 ∧
    (delete_tweets api n (pre ++ t :: post) false sc ci none).finalLedgerFile =
      some (pre.map (mkEntry n)) := by
  have h0 : ¬(pre ++ t :: post).length = 0 := by simp
  have hgate : (!sc && pyStrip ci != "DELETE") = false := by
    rcases hc with h | h <;> simp [h]
  have hrun : delete_tweets api n (pre ++ t :: post) false sc ci none =
      runAfterConfirm api n (pre ++ t :: post) none := by
    simp [delete_tweets, h0, hgate]
  obtain ⟨s1, d1, hloop, hlog, hcalls, hdel, hfail, hcnt⟩ :=
    runLoop_success_run api n pre (t :: post) ⟨[], none, 0, 0, 0, 0⟩
      (fun i hi => by simpa using hapi i hi)
      (fun u hu => hpar u (by simp [hu]))
  have hstep : step api n s1 t =
      ({ s1 with calls := s1.calls + 1, file := some s1.log },
        [Event.deleteCall t.id, Event.ledgerWrite s1.log], true) :=
    step_forbidden_abort api n s1 t msg (hpar t (by simp))
      (by rw [hcalls]; simpa using hk) hex
  rw [runLoop_cons_abort api n s1 _ t post _ hstep] at hloop
  have hfa : delete_tweets api n (pre ++ t :: post) false sc ci none =
      ⟨readEventsOf none ++
          (d1 ++ [Event.deleteCall t.id, Event.ledgerWrite s1.log]) ++
          [Event.ledgerWrite s1.log],
        some s1.log, s1.deleted, s1.failed, true, []⟩ := by
    rw [hrun]
    simp only [runAfterConfirm, Option.getD]
    rw [show ledgerIds [] = [] from rfl, remainingOf_nilIds]
    rw [if_neg h0]
    rw [hloop]
  rw [hfa]
  refine ⟨rfl, ?_, ?_, ?_, ?_⟩
  · rw [hdel]
    simp
  · rw [hfail]
  · simp only [readEventsOf, List.nil_append, countDeleteCalls_append, hcnt]
    rfl
  · rw [hlog]
    simp

/-- C4 witness: exhaustion on the second of three tweets. -/
theorem c4_quota_abort_witness :
    (delete_tweets
      (fun i => if i = 0 then ApiResult.success else ApiResult.forbidden "402") "now"
      ([⟨"1", "a", none⟩] ++ ⟨"2", "b", none⟩ :: [⟨"3", "c", none⟩])
      false true "" none).aborted = true ∧
    (delete_tweets
      (fun i => if i = 0 then ApiResult.success else ApiResult.forbidden "402") "now"
      ([⟨"1", "a", none⟩] ++ ⟨"2", "b", none⟩ :: [⟨"3", "c", none⟩])
      false true "" none).deleted = 1 ∧
    (delete_tweets
      (fun i => if i = 0 then ApiResult.success else ApiResult.forbidden "402") "now"
      ([⟨"1", "a", none⟩] ++ ⟨"2", "b", none⟩ :: [⟨"3", "c", none⟩])
      false true "" none).failed = 0 ∧
    countDeleteCalls (delete_tweets
      (fun i => if i = 0 then ApiResult.success else ApiResult.forbidden "402") "now"
      ([⟨"1", "a", none⟩] ++ ⟨"2", "b", none⟩ :: [⟨"3", "c", none⟩])
      false true "" none).events = 2 ∧
    (delete_tweets
      (fun i => if i = 0 then ApiResult.success else ApiResult.forbidden "402") "now"
      ([⟨"1", "a", none⟩] ++ ⟨"2", "b", none⟩ :: [⟨"3", "c", none⟩])
      false true "" none).finalLedgerFile = some [⟨"1", "a", none, "now"⟩] :=
  c4_quota_abort
    (fun i => if i = 0 then ApiResult.success else ApiResult.forbidden "402") "now"
    [⟨"1", "a", none⟩] ⟨"2", "b", none⟩ [⟨"3", "c", none⟩] "402"
    (by decide)
    (by
      intro i hi
      have h1 : i < 1 := by simpa using hi
      have hi0 : i = 0 := by omega
      subst hi0
      rfl)
    rfl (by decide) true "" (Or.inl rfl)

/-- C9.  Dry-run frame: on a non-empty candidate list, a dry run
produces no events at all (no delete call, no ledger read or write, no
sleep), leaves the ledger file unchanged, and reports only the preview
of the first 20 items. -/
theorem c9_dry_run_frame (api : Nat → ApiResult) (n : String) (tweets : List Tweet)
    (sc : Bool) (ci : String) (file : Option (List LedgerEntry))
    (h : tweets ≠ []) :
    (delete_tweets api n tweets true sc ci file).events = [] ∧
    (delete_tweets api n tweets true sc ci file).finalLedgerFile = file ∧
    (delete_tweets api n tweets true sc ci file).preview = tweets.take 20 ∧
    (delete_tweets api n tweets true sc ci file).preview.length ≤ 20 := by
  have h0 : ¬tweets.length = 0 := by
    simpa using fun hl => h (List.length_eq_zero.mp hl)
  refine ⟨?_, ?_, ?_, ?_⟩ <;> simp [delete_tweets, h0]

/-- C9 witness: a concrete dry run over 21 tweets previews 20. -/
theorem c9_dry_run_frame_witness :
    (delete_tweets (fun _ => ApiResult.success) "now"
      (List.replicate 21 ⟨"1", "a", none⟩) true false "" none).events = [] ∧
    (delete_tweets (fun _ => ApiResult.success) "now"
      (List.replicate 21 ⟨"1", "a", none⟩) true false "" none).preview.length ≤ 20 := by
  have h := c9_dry_run_frame (fun _ => ApiResult.success) "now"
    (List.replicate 21 ⟨"1", "a", none⟩) false "" none (by decide)
  exact ⟨h.1, h.2.2.2⟩

/-- C5 counterexample: the retry after a rate limit fails with a
Forbidden whose message matches the exhaustion heuristics used
everywhere else in the loop ("spend cap"), yet the run does not abort:
it keeps going and issues a delete call for the next tweet (3 calls in
total), because the retry handler only checks for "402" and
"credits". -/
theorem c5_retry_exhaustion_counterexample :
    isExhaustionForbidden "Monthly spend cap reached" = true ∧
    (delete_tweets
      (fun i => if i = 0 then ApiResult.tooManyRequests
        else if i = 1 then ApiResult.forbidden "Monthly spend cap reached"
        else ApiResult.success) "now"
      [⟨"1", "a", none⟩, ⟨"2", "b", none⟩] false true "" none).aborted = false ∧
    countDeleteCalls (delete_tweets
      (fun i => if i = 0 then ApiResult.tooManyRequests
        else if i = 1 then ApiResult.forbidden "Monthly spend cap reached"
        else ApiResult.success) "now"
      [⟨"1", "a", none⟩, ⟨"2", "b", none⟩] false true "" none).events = 3 := by
  decide

/-- C5 amended: on a rate-limited delete call the loop writes the
ledger, sleeps for the full window plus the buffer, and retries the
same tweet exactly once (exactly two delete calls happen for the item);
the run aborts after the retry only when the retry raises a Forbidden
whose message contains "402" or (lowercased) "credits" — then the
ledger is persisted and the loop stops. -/
theorem c5_ratelimit_retry_once (api : Nat → ApiResult) (n : String)
    (s : LoopState) (t : Tweet) (hpar : pyIntParses t.id = true)
    (h1 : api s.calls = ApiResult.tooManyRequests) :
    ((step api n s t).2.1.take 4 =
        [Event.deleteCall t.id, Event.ledgerWrite s.log,
          Event.sleep (RATE_LIMIT_WINDOW + 5), Event.deleteCall t.id] ∧
      countDeleteCalls (step api n s t).2.1 = 2) ∧
    (∀ m, api (s.calls + 1) = ApiResult.forbidden m → isRetryExhaustion m = true →
      step api n s t =
        ({ s with calls := s.calls + 1 + 1, file := some s.log, batch_count := 0 },
          [Event.deleteCall t.id, Event.ledgerWrite s.log,
            Event.sleep (RATE_LIMIT_WINDOW + 5), Event.deleteCall t.id,
            Event.ledgerWrite s.log], true)) := by
  constructor
  · rcases h2 : api (s.calls + 1) with _ | _ | _ | m | m
    · constructor
      · simp [step, hpar, h1, h2, List.take]
      · simp [step, hpar, h1, h2, countDeleteCalls_append,
          countDeleteCalls_cons_call, countDeleteCalls_cons_write]
    · constructor
      · simp [step, hpar, h1, h2, List.take]
      · simp [step, hpar, h1, h2, countDeleteCalls_append,
          countDeleteCalls_cons_call, countDeleteCalls_cons_write]
    · constructor
      · simp [step, hpar, h1, h2, List.take]
      · simp [step, hpar, h1, h2, countDeleteCalls_append,
          countDeleteCalls_cons_call, countDeleteCalls_cons_write]
    · by_cases hex : isRetryExhaustion m = true
      · constructor
        · simp [step, hpar, h1, h2, hex, List.take]
        · simp [step, hpar, h1, h2, hex, countDeleteCalls, List.filter, isCall]
      · constructor
        · simp [step, hpar, h1, h2, hex, List.take]
        · simp [step, hpar, h1, h2, hex, countDeleteCalls_append,
            countDeleteCalls_cons_call, countDeleteCalls_cons_write]
    · constructor
      · simp [step, hpar, h1, h2, List.take]
      · simp [step, hpar, h1, h2, countDeleteCalls_append,
          countDeleteCalls_cons_call, countDeleteCalls_cons_write]
  · intro m h2 hex
    simp [step, hpar, h1, h2, hex]

/-- C5 witness: one rate-limited call whose retry raises a Forbidden
containing "402"; the step persists the ledger, sleeps, retries once
and aborts. -/
theorem c5_ratelimit_retry_once_witness :
    countDeleteCalls ((step
      (fun i => if i = 0 then ApiResult.tooManyRequests
        else ApiResult.forbidden "402 Payment Required") "now"
      ⟨[], none, 0, 0, 0, 0⟩ ⟨"1", "a", none⟩).2.1) = 2 ∧
    step
      (fun i => if i = 0 then ApiResult.tooManyRequests
        else ApiResult.forbidden "402 Payment Required") "now"
      ⟨[], none, 0, 0, 0, 0⟩ ⟨"1", "a", none⟩ =
      (⟨[], some [], 0, 0, 0, 2⟩,
        [Event.deleteCall "1", Event.ledgerWrite [],
          Event.sleep (RATE_LIMIT_WINDOW + 5), Event.deleteCall "1",
          Event.ledgerWrite []], true) := by
  have h := c5_ratelimit_retry_once
    (fun i => if i = 0 then ApiResult.tooManyRequests
      else ApiResult.forbidden "402 Payment Required") "now"
    ⟨[], none, 0, 0, 0, 0⟩ ⟨"1", "a", none⟩ (by decide) rfl
  exact ⟨h.1.2, h.2 "402 Payment Required" rfl (by decide)⟩

theorem wbsAux_append (b : List Event) (hb : wbsAux false b = true) :
    ∀ (a : List Event) (p : Bool), wbsAux p a = true → wbsAux p (a ++ b) = true
  | [], p, _ => by
    cases b with
    | nil => simp [wbsAux]
    | cons e rest =>
      cases e with
      | sleep k => simp [wbsAux] at hb
      | ledgerWrite L => simpa [wbsAux] using hb
      | deleteCall i => simpa [wbsAux] using hb
      | ledgerRead => simpa [wbsAux] using hb
  | e :: rest, p, h => by
    cases e with
    | sleep k =>
      simp only [wbsAux, Bool.and_eq_true] at h
      simp only [List.cons_append, wbsAux, Bool.and_eq_true]
      exact ⟨h.1, wbsAux_append b hb rest false h.2⟩
    | ledgerWrite L =>
      simp only [wbsAux] at h
      simp only [List.cons_append, wbsAux]
      exact wbsAux_append b hb rest true h
    | deleteCall i =>
      simp only [wbsAux] at h
      simp only [List.cons_append, wbsAux]
      exact wbsAux_append b hb rest false h
    | ledgerRead =>
      simp only [wbsAux] at h
      simp only [List.cons_append, wbsAux]
      exact wbsAux_append b hb rest false h

theorem chunkOK_append (a b : List Event) (ha : chunkOK a = true)
    (hb : chunkOK b = true) : chunkOK (a ++ b) = true := by
  simp only [chunkOK, Bool.and_eq_true] at ha hb ⊢
  rw [List.all_append]
  exact ⟨wbsAux_append b hb.1 a false ha.1, by simp [ha.2, hb.2]⟩

theorem afterItem_chunkOK (s : LoopState) : chunkOK (afterItem s).2.1 = true := by
  unfold afterItem
  split <;> simp [chunkOK, wbsAux, isRead]

theorem chunkOK_cons_call (i : String) (d : List Event) (h : chunkOK d = true) :
    chunkOK (Event.deleteCall i :: d) = true := by
  simp only [chunkOK, Bool.and_eq_true] at h ⊢
  refine ⟨by simpa [wbsAux] using h.1, ?_⟩
  rw [List.all_cons, h.2]
  simp [isRead]

theorem chunkOK_rl (i j : String) (L : List LedgerEntry) (k : Nat)
    (d : List Event) (h : chunkOK d = true) :
    chunkOK (Event.deleteCall i :: Event.ledgerWrite L :: Event.sleep k ::
      Event.deleteCall j :: d) = true := by
  simp only [chunkOK, Bool.and_eq_true] at h ⊢
  refine ⟨by simpa [wbsAux] using h.1, ?_⟩
  rw [List.all_cons, List.all_cons, List.all_cons, List.all_cons, h.2]
  simp [isRead]

/-- Every iteration of the loop produces a well-formed chunk of events:
no ledger read, and each sleep comes right after a ledger write. -/
theorem step_chunkOK (api : Nat → ApiResult) (n : String) (s : LoopState)
    (t : Tweet) : chunkOK (step api n s t).2.1 = true := by
  by_cases hp : pyIntParses t.id = true
  · rcases h : api s.calls with _ | _ | _ | m | m
    · simp only [step, hp, h, if_true]
      exact chunkOK_cons_call _ _ (afterItem_chunkOK _)
    · rcases h2 : api (s.calls + 1) with _ | _ | _ | m2 | m2
      · simp [step, hp, h, h2]
        exact chunkOK_rl _ _ _ _ _ (afterItem_chunkOK _)
      · simp [step, hp, h, h2]
        exact chunkOK_rl _ _ _ _ _ (afterItem_chunkOK _)
      · simp [step, hp, h, h2]
        exact chunkOK_rl _ _ _ _ _ (afterItem_chunkOK _)
      · by_cases hex : isRetryExhaustion m2 = true
        · simp [step, hp, h, h2, hex, chunkOK, wbsAux, isRead]
        · simp [step, hp, h, h2, hex]
          exact chunkOK_rl _ _ _ _ _ (afterItem_chunkOK _)
      · simp [step, hp, h, h2]
        exact chunkOK_rl _ _ _ _ _ (afterItem_chunkOK _)
    · simp only [step, hp, h, if_true]
      exact chunkOK_cons_call _ _ (afterItem_chunkOK _)
    · by_cases hex : isExhaustionForbidden m = true
      · simp [step, hp, h, hex, chunkOK, wbsAux, isRead]
      · simp [step, hp, h, hex]
        exact chunkOK_cons_call _ _ (afterItem_chunkOK _)
    · by_cases hex : isExhaustionOther m = true
      · simp [step, hp, h, hex, chunkOK, wbsAux, isRead]
      · simp [step, hp, h, hex]
        exact chunkOK_cons_call _ _ (afterItem_chunkOK _)
  · by_cases hm : isExhaustionOther (intValueErrorMsg t.id) = true
    · simp [step, hp, hm, chunkOK, wbsAux, isRead]
    · simp [step, hp, hm]
      exact afterItem_chunkOK _

/-- The whole loop trace is a well-formed chunk. -/
theorem runLoop_chunkOK (api : Nat → ApiResult) (n : String) :
    ∀ (ts : List Tweet) (s : LoopState), chunkOK (runLoop api n s ts).2.1 = true
  | [], s => by
    rw [runLoop_nil]
    rfl
  | t :: ts, s => by
    rcases hstep : step api n s t with ⟨s1, d1, ab⟩
    have hd1 : chunkOK d1 = true := by
      have hc := step_chunkOK api n s t
      rw [hstep] at hc
      exact hc
    cases ab with
    | true =>
      rw [runLoop_cons_abort api n s s1 t ts d1 hstep]
      exact hd1
    | false =>
      rw [runLoop_cons_noAbort api n s s1 t ts d1 hstep]
      exact chunkOK_append d1 _ hd1 (runLoop_chunkOK api n ts s1)

theorem noReadAfterCall_of_all :
    ∀ l : List Event, l.all (fun e => !isRead e) = true → noReadAfterCall l = true
  | [], _ => rfl
  | e :: rest, h => by
    have hrest : rest.all (fun e => !isRead e) = true := by
      simp only [List.all_cons, Bool.and_eq_true] at h
      exact h.2
    cases e with
    | deleteCall i => simpa [noReadAfterCall] using hrest
    | ledgerRead =>
      exfalso
      simp [List.all_cons, isRead] at h
    | ledgerWrite L =>
      simpa [noReadAfterCall] using noReadAfterCall_of_all rest hrest
    | sleep k =>
      simpa [noReadAfterCall] using noReadAfterCall_of_all rest hrest

/-- The four result shapes of delete_tweets: empty input, dry run,
rejected confirmation or nothing remaining, and the deletion loop. -/
theorem delete_tweets_cases (api : Nat → ApiResult) (n : String)
    (tweets : List Tweet) (dr sc : Bool) (ci : String)
    (file : Option (List LedgerEntry)) :
    delete_tweets api n tweets dr sc ci file = ⟨[], file, 0, 0, false, []⟩ ∨
    delete_tweets api n tweets dr sc ci file = ⟨[], file, 0, 0, false, tweets.take 20⟩ ∨
    delete_tweets api n tweets dr sc ci file = ⟨readEventsOf file, file, 0, 0, false, []⟩ ∨
    ∃ s1 d1 ab,
      runLoop api n ⟨file.getD [], file, 0, 0, 0, 0⟩
          (remainingOf (ledgerIds (file.getD [])) tweets) = (s1, d1, ab) ∧
      delete_tweets api n tweets dr sc ci file =
        ⟨readEventsOf file ++ d1 ++ [Event.ledgerWrite s1.log], some s1.log,
          s1.deleted, s1.failed, ab, []⟩ := by
  by_cases h0 : tweets.length = 0
  · left
    simp [delete_tweets, h0]
  by_cases hdr : dr = true
  · right; left
    simp [delete_tweets, h0, hdr]
  by_cases hgate : (!sc && pyStrip ci != "DELETE") = true
  · left
    simp [delete_tweets, h0, hdr, hgate]
  by_cases hrem : (remainingOf (ledgerIds (file.getD [])) tweets).length = 0
  · right; right; left
    simp only [delete_tweets, runAfterConfirm]
    rw [if_neg h0, if_neg hdr, if_neg hgate, if_pos hrem]
  · right; right; right
    rcases hout : runLoop api n ⟨file.getD [], file, 0, 0, 0, 0⟩
        (remainingOf (ledgerIds (file.getD [])) tweets) with ⟨s1, d1, ab⟩
    refine ⟨s1, d1, ab, rfl, ?_⟩
    simp only [delete_tweets, runAfterConfirm]
    rw [if_neg h0, if_neg hdr, if_neg hgate, if_neg hrem, hout]

/-- C7 counterexample: two successful deletions in a row; the full
event trace has no ledger write between the first and the second delete
call, so the ledger is not flushed after each successful deletion
before the next call begins. -/
theorem c7_no_flush_between_successes :
    (delete_tweets (fun _ => ApiResult.success) "now"
      [⟨"1", "hello", none⟩, ⟨"2", "buy crypto", some "2023-06-01"⟩]
      false true "" none).events =
      [Event.deleteCall "1", Event.deleteCall "2",
        Event.ledgerWrite [⟨"1", "hello", none, "now"⟩,
          ⟨"2", "buy crypto", some "2023-06-01", "now"⟩]] := by
  decide

/-- C7 amended: in every run the ledger is read (if at all) before any
delete call; every sleep — a rate-limit wait or a proactive pause — is
immediately preceded by a ledger write; and whenever at least one
delete call was made the trace ends with a ledger write whose content
is exactly the final ledger file.  Successful deletions are only
appended in memory, reaching disk at the next such checkpoint or at the
end of the run. -/
theorem c7_flush_checkpoints (api : Nat → ApiResult) (n : String)
    (tweets : List Tweet) (dr sc : Bool) (ci : String)
    (file : Option (List LedgerEntry)) :
    writeBeforeEverySleep (delete_tweets api n tweets dr sc ci file).events = true ∧
    noReadAfterCall (delete_tweets api n tweets dr sc ci file).events = true ∧
    (0 < countDeleteCalls (delete_tweets api n tweets dr sc ci file).events →
      ∃ l, (delete_tweets api n tweets dr sc ci file).events.getLast? =
          some (Event.ledgerWrite l) ∧
        (delete_tweets api n tweets dr sc ci file).finalLedgerFile = some l) := by
  rcases delete_tweets_cases api n tweets dr sc ci file with
    h | h | h | ⟨s1, d1, ab, hloop, h⟩ <;> rw [h]
  · refine ⟨rfl, rfl, ?_⟩
    intro hc
    simp at hc
  · refine ⟨rfl, rfl, ?_⟩
    intro hc
    simp at hc
  · cases file with
    | none =>
      refine ⟨rfl, rfl, ?_⟩
      intro hc
      simp [readEventsOf] at hc
    | some L =>
      refine ⟨rfl, rfl, ?_⟩
      intro hc
      simp [readEventsOf] at hc
  · have hchunk : chunkOK d1 = true := by
      have hc := runLoop_chunkOK api n
        (remainingOf (ledgerIds (file.getD [])) tweets) ⟨file.getD [], file, 0, 0, 0, 0⟩
      rw [hloop] at hc
      exact hc
    simp only [chunkOK, Bool.and_eq_true] at hchunk
    have hre : wbsAux false (readEventsOf file) = true := by
      cases file <;> simp [readEventsOf, wbsAux]
    have hb2 : wbsAux false (d1 ++ [Event.ledgerWrite s1.log]) = true :=
      wbsAux_append [Event.ledgerWrite s1.log] (by simp [wbsAux]) d1 false hchunk.1
    refine ⟨?_, ?_, ?_⟩
    · show wbsAux false (readEventsOf file ++ d1 ++ [Event.ledgerWrite s1.log]) = true
      rw [List.append_assoc]
      exact wbsAux_append _ hb2 (readEventsOf file) false hre
    · have hall : (d1 ++ [Event.ledgerWrite s1.log]).all (fun e => !isRead e) = true := by
        rw [List.all_append, hchunk.2]
        simp [isRead]
      cases file with
      | none =>
        simpa [readEventsOf] using noReadAfterCall_of_all _ hall
      | some L =>
        show noReadAfterCall (Event.ledgerRead ::
          (d1 ++ [Event.ledgerWrite s1.log])) = true
        simpa [noReadAfterCall] using noReadAfterCall_of_all _ hall
    · intro _
      exact ⟨s1.log, List.getLast?_concat _, rfl⟩

/-- C7 witness: checkpoints of a concrete run with two successes. -/
theorem c7_flush_checkpoints_witness :
    writeBeforeEverySleep (delete_tweets (fun _ => ApiResult.success) "now"
      [⟨"1", "a", none⟩, ⟨"2", "b", none⟩] false true "" none).events = true ∧
    (∃ l, (delete_tweets (fun _ => ApiResult.success) "now"
        [⟨"1", "a", none⟩, ⟨"2", "b", none⟩] false true "" none).events.getLast? =
        some (Event.ledgerWrite l) ∧
      (delete_tweets (fun _ => ApiResult.success) "now"
        [⟨"1", "a", none⟩, ⟨"2", "b", none⟩] false true "" none).finalLedgerFile =
        some l) := by
  have h := c7_flush_checkpoints (fun _ => ApiResult.success) "now"
    [⟨"1", "a", none⟩, ⟨"2", "b", none⟩] false true "" none
  exact ⟨h.1, h.2.2 (by decide)⟩

/-- Per item the loop either leaves the in-memory log alone or appends
exactly the entry of that tweet. -/
theorem step_log (api : Nat → ApiResult) (n : String) (s : LoopState) (t : Tweet) :
    (step api n s t).1.log = s.log ∨
      (step api n s t).1.log = s.log ++ [mkEntry n t] := by
  by_cases hp : pyIntParses t.id = true
  · rcases h : api s.calls with _ | _ | _ | m | m
    · right
      simp [step, hp, h]
    · rcases h2 : api (s.calls + 1) with _ | _ | _ | m2 | m2
      · right
        simp [step, hp, h, h2]
      · left
        simp [step, hp, h, h2]
      · left
        simp [step, hp, h, h2]
      · by_cases hex : isRetryExhaustion m2 = true
        · left
          simp [step, hp, h, h2, hex]
        · left
          simp [step, hp, h, h2, hex]
      · left
        simp [step, hp, h, h2]
    · left
      simp [step, hp, h]
    · by_cases hex : isExhaustionForbidden m = true
      · left
        simp [step, hp, h, hex]
      · left
        simp [step, hp, h, hex]
    · by_cases hex : isExhaustionOther m = true
      · left
        simp [step, hp, h, hex]
      · left
        simp [step, hp, h, hex]
  · by_cases hm : isExhaustionOther (intValueErrorMsg t.id) = true
    · left
      simp [step, hp, hm]
    · left
      simp [step, hp, hm]

/-- The loop preserves uniqueness of ledger ids when the pending tweets
have fresh, pairwise distinct ids. -/
theorem runLoop_nodupIds (api : Nat → ApiResult) (n : String) :
    ∀ (ts : List Tweet) (s : LoopState),
      (ledgerIds s.log).Nodup →
      (∀ t ∈ ts, ¬ t.id ∈ ledgerIds s.log) →
      (ts.map (fun t => t.id)).Nodup →
      (ledgerIds (runLoop api n s ts).1.log).Nodup
  | [], s, h1, _, _ => by
    rw [runLoop_nil]
    exact h1
  | t :: ts, s, h1, h2, h3 => by
    rcases hstep : step api n s t with ⟨s1, d1, ab⟩
    have hlog : s1.log = s.log ∨ s1.log = s.log ++ [mkEntry n t] := by
      have hl := step_log api n s t
      rw [hstep] at hl
      exact hl
    have hid1 : (ledgerIds s1.log).Nodup := by
      rcases hlog with hl | hl <;> rw [hl]
      · exact h1
      · rw [ledgerIds_append, List.nodup_append]
        refine ⟨h1, by simp [ledgerIds], ?_⟩
        intro a ha hb
        simp [ledgerIds, mkEntry] at hb
        subst hb
        exact h2 t (by simp) ha
    have hmem1 : ∀ u ∈ ts, ¬ u.id ∈ ledgerIds s1.log := by
      intro u hu
      have hneq : u.id ≠ t.id := by
        intro he
        rw [List.map_cons] at h3
        exact (List.nodup_cons.mp h3).1 (he ▸ List.mem_map_of_mem _ hu)
      rcases hlog with hl | hl <;> rw [hl]
      · exact h2 u (by simp [hu])
      · rw [ledgerIds_append]
        intro hmem
        rcases List.mem_append.mp hmem with hA | hB
        · exact h2 u (by simp [hu]) hA
        · simp [ledgerIds, mkEntry] at hB
          exact hneq hB
    have h3t : (ts.map (fun t => t.id)).Nodup := by
      rw [List.map_cons] at h3
      exact (List.nodup_cons.mp h3).2
    cases ab with
    | true =>
      rw [runLoop_cons_abort api n s s1 t ts d1 hstep]
      exact hid1
    | false =>
      rw [runLoop_cons_noAbort api n s s1 t ts d1 hstep]
      exact runLoop_nodupIds api n ts s1 hid1 hmem1 h3t

/-- C8 counterexample: two candidates with the same id (and different
text) are not deduplicated — both get a delete call, and when both
calls succeed the ledger ends with the id "1" twice. -/
theorem c8_duplicate_candidates_counterexample :
    countDeleteCalls (delete_tweets (fun _ => ApiResult.success) "now"
      [⟨"1", "a", none⟩, ⟨"1", "b", none⟩] false true "" none).events = 2 ∧
    (delete_tweets (fun _ => ApiResult.success) "now"
      [⟨"1", "a", none⟩, ⟨"1", "b", none⟩] false true "" none).finalLedgerFile =
      some [⟨"1", "a", none, "now"⟩, ⟨"1", "b", none, "now"⟩] ∧
    ¬(ledgerIds [⟨"1", "a", none, "now"⟩, ⟨"1", "b", none, "now"⟩]).Nodup := by
  decide

/-- C8 amended: membership checks are by id alone against the ledger
loaded at the start: a candidate whose id is in the start ledger is
skipped no matter its text or created_at.  Duplicate ids inside the
candidate list are not deduplicated; id uniqueness of the final ledger
is guaranteed when the start ledger has unique ids and the candidate
ids are pairwise distinct. -/
theorem c8_ledger_id_unique (api : Nat → ApiResult) (n : String)
    (tweets : List Tweet) (dr sc : Bool) (ci : String)
    (file : Option (List LedgerEntry))
    (h0 : (ledgerIds (file.getD [])).Nodup)
    (h1 : (tweets.map (fun t => t.id)).Nodup) :
    (∀ L, (delete_tweets api n tweets dr sc ci file).finalLedgerFile = some L →
        (ledgerIds L).Nodup) ∧
    (∀ t ∈ tweets, t.id ∈ ledgerIds (file.getD []) →
        t ∉ remainingOf (ledgerIds (file.getD [])) tweets) := by
  constructor
  · intro L hL
    rcases delete_tweets_cases api n tweets dr sc ci file with
      h | h | h | ⟨s1, d1, ab, hloop, h⟩ <;> rw [h] at hL
    · cases file with
      | none => simp at hL
      | some L0 =>
        have hL0 : L0 = L := by simpa using hL
        subst hL0
        simpa using h0
    · cases file with
      | none => simp at hL
      | some L0 =>
        have hL0 : L0 = L := by simpa using hL
        subst hL0
        simpa using h0
    · cases file with
      | none => simp at hL
      | some L0 =>
        have hL0 : L0 = L := by simpa using hL
        subst hL0
        simpa using h0
    · have hsl : s1.log = L := by simpa using hL
      subst hsl
      have hrun := runLoop_nodupIds api n
        (remainingOf (ledgerIds (file.getD [])) tweets)
        ⟨file.getD [], file, 0, 0, 0, 0⟩ h0
        (by
          intro u hu hmem
          have hcon := ((mem_remainingOf _ _ u).1 hu).2
          have htrue := (contains_iff_memStr _ _).2 hmem
          rw [htrue] at hcon
          cases hcon)
        (List.Nodup.sublist
          (List.Sublist.map _ (List.filter_sublist tweets)) h1)
      rw [hloop] at hrun
      exact hrun
  · intro t ht hid hmem
    have hcon := ((mem_remainingOf _ _ t).1 hmem).2
    have htrue := (contains_iff_memStr _ _).2 hid
    rw [htrue] at hcon
    cases hcon

/-- C8 witness: a run over two distinct ids from a fresh ledger keeps
ledger ids unique. -/
theorem c8_ledger_id_unique_witness :
    (ledgerIds [⟨"1", "a", none, "now"⟩, ⟨"2", "b", none, "now"⟩]).Nodup :=
  (c8_ledger_id_unique (fun _ => ApiResult.success) "now"
    [⟨"1", "a", none⟩, ⟨"2", "b", none⟩] false true "" none
    (by decide) (by decide)).1
    [⟨"1", "a", none, "now"⟩, ⟨"2", "b", none, "now"⟩] (by decide)

theorem afterItem_batch_lt (s : LoopState) :
    (afterItem s).1.batch_count < RATE_LIMIT_DELETES - 2 := by
  unfold afterItem
  split
  · show (0 : Nat) < RATE_LIMIT_DELETES - 2
    decide
  · next h =>
      exact Nat.lt_of_not_le h

/-- The pause counter stays strictly below the pause threshold after
every iteration, whatever the outcome. -/
theorem step_batch_lt (api : Nat → ApiResult) (n : String) (s : LoopState)
    (t : Tweet) (hb : s.batch_count < RATE_LIMIT_DELETES - 2) :
    (step api n s t).1.batch_count < RATE_LIMIT_DELETES - 2 := by
  by_cases hp : pyIntParses t.id = true
  · rcases h : api s.calls with _ | _ | _ | m | m
    · simp only [step, hp, h, if_true]
      exact afterItem_batch_lt _
    · rcases h2 : api (s.calls + 1) with _ | _ | _ | m2 | m2
      · simp [step, hp, h, h2]
        exact afterItem_batch_lt _
      · simp [step, hp, h, h2]
        exact afterItem_batch_lt _
      · simp [step, hp, h, h2]
        exact afterItem_batch_lt _
      · by_cases hex : isRetryExhaustion m2 = true
        · simp [step, hp, h, h2, hex]
          decide
        · simp [step, hp, h, h2, hex]
          exact afterItem_batch_lt _
      · simp [step, hp, h, h2]
        exact afterItem_batch_lt _
    · simp only [step, hp, h, if_true]
      exact afterItem_batch_lt _
    · by_cases hex : isExhaustionForbidden m = true
      · simp [step, hp, h, hex]
        exact hb
      · simp [step, hp, h, hex]
        exact afterItem_batch_lt _
    · by_cases hex : isExhaustionOther m = true
      · simp [step, hp, h, hex]
        exact hb
      · simp [step, hp, h, hex]
        exact afterItem_batch_lt _
  · by_cases hm : isExhaustionOther (intValueErrorMsg t.id) = true
    · simp [step, hp, hm]
      exact hb
    · simp [step, hp, hm]
      exact afterItem_batch_lt _

/-- C10 counterexample: 49 delete calls (all NotFound) happen with not
a single pause, because the counter `batch_count` is incremented only
on successful deletions, not on every call. -/
theorem c10_counter_counts_successes_only :
    countDeleteCalls (delete_tweets (fun _ => ApiResult.notFound) "now"
      (List.replicate 49 ⟨"1", "a", none⟩) false true "" none).events = 49 ∧
    countSleeps (delete_tweets (fun _ => ApiResult.notFound) "now"
      (List.replicate 49 ⟨"1", "a", none⟩) false true "" none).events = 0 := by
  decide

/-- C10 amended: the counter tracks successful deletions since the last
pause.  (1) It stays strictly below RATE_LIMIT_DELETES - 2 after every
iteration, so the successful deletions between consecutive pauses never
exceed that threshold; (2) the success that makes it reach the
threshold triggers the pause: the ledger (with the new entry) is
written, the loop sleeps for the window plus the buffer, and the
counter resets to zero.  Failed and NotFound calls do not advance the
counter, so the number of calls (as opposed to successes) between
pauses can exceed the threshold. -/
theorem c10_proactive_pause (api : Nat → ApiResult) (n : String)
    (s : LoopState) (t : Tweet) :
    (s.batch_count < RATE_LIMIT_DELETES - 2 →
      (step api n s t).1.batch_count < RATE_LIMIT_DELETES - 2) ∧
    (s.batch_count + 1 = RATE_LIMIT_DELETES - 2 → pyIntParses t.id = true →
      api s.calls = ApiResult.success →
      step api n s t =
        ({ s with
            calls := s.calls + 1,
            deleted := s.deleted + 1,
            batch_count := 0,
            log := s.log ++ [mkEntry n t],
            file := some (s.log ++ [mkEntry n t]) },
          [Event.deleteCall t.id, Event.ledgerWrite (s.log ++ [mkEntry n t]),
            Event.sleep (RATE_LIMIT_WINDOW + 5)], false)) := by
  constructor
  · intro hb
    exact step_batch_lt api n s t hb
  · intro hb hp hs
    have hcond : RATE_LIMIT_DELETES - 2 ≤ s.batch_count + 1 := hb ▸ Nat.le_refl _
    simp [step, hp, hs, afterItem, hcond]

/-- C10 witness: a success at counter value 47 (= 50 - 2 - 1) writes
the ledger, sleeps and resets the counter; and the counter stays below
the threshold. -/
theorem c10_proactive_pause_witness :
    step (fun _ => ApiResult.success) "now" ⟨[], none, 0, 0, 47, 0⟩ ⟨"1", "a", none⟩ =
      (⟨[⟨"1", "a", none, "now"⟩], some [⟨"1", "a", none, "now"⟩], 1, 0, 0, 1⟩,
        [Event.deleteCall "1", Event.ledgerWrite [⟨"1", "a", none, "now"⟩],
          Event.sleep (RATE_LIMIT_WINDOW + 5)], false) ∧
    (step (fun _ => ApiResult.success) "now" ⟨[], none, 0, 0, 40, 0⟩
      ⟨"1", "a", none⟩).1.batch_count < RATE_LIMIT_DELETES - 2 :=
  ⟨(c10_proactive_pause (fun _ => ApiResult.success) "now"
      ⟨[], none, 0, 0, 47, 0⟩ ⟨"1", "a", none⟩).2 (by decide) (by decide) rfl,
   (c10_proactive_pause (fun _ => ApiResult.success) "now"
      ⟨[], none, 0, 0, 40, 0⟩ ⟨"1", "a", none⟩).1 (by decide)⟩

end TweetPurge
